import Mathlib

/-!
Verification of the browser-pool core of the html2Pdf service
(source: src/config.rs, src/error.rs, src/tracked.rs, src/pool.rs).

Shallow embedding conventions:
* Durations and instants are modelled in whole seconds as `Nat`; the age of a
  tracked instance at time `now` is `now - created_at` (the code computes
  `created_at.elapsed()`).
* The `HashMap<u64, TrackedBrowser>` field `active` is modelled as an
  association list with unique keys; `insert` replaces, `remove` erases.
* The `Vec<TrackedBrowser>` field `available` keeps the vector order:
  `push` appends at the end, `pop` takes the last element.
* I/O outcomes (factory success, health checks, pings) are oracles passed
  in as `Bool`-valued parameters, since they are results of external calls.
* Spawning a replacement task of `count` browsers is recorded by appending
  `count` to `replacement_requests` (the code pushes one `JoinHandle` per
  `spawn_replacement_creation(inner, count)` call).
-/

/-- Error taxonomy from src/error.rs (`BrowserPoolError`). -/
inductive BrowserPoolError where
  | BrowserCreation (msg : String)
  | HealthCheckFailed (msg : String)
  | ShuttingDown
  | Configuration (msg : String)
deriving DecidableEq, Repr

/-- Configuration record from src/config.rs (`BrowserPoolConfig`); durations in seconds. -/
structure BrowserPoolConfig where
  max_pool_size : Nat
  warmup_count : Nat
  ping_interval : Nat
  browser_ttl : Nat
  max_ping_failures : Nat
  warmup_timeout : Nat
deriving DecidableEq, Repr

/-- Source `BrowserPoolConfig::default()`: 5 / 3 / 15 s / 3600 s / 3 / 60 s. -/
def BrowserPoolConfig.default : BrowserPoolConfig :=
  { max_pool_size := 5
    warmup_count := 3
    ping_interval := 15
    browser_ttl := 3600
    max_ping_failures := 3
    warmup_timeout := 60 }

/-- Builder from src/config.rs (`BrowserPoolConfigBuilder`): wraps a config record. -/
structure BrowserPoolConfigBuilder where
  config : BrowserPoolConfig
deriving DecidableEq, Repr

/-- Source `BrowserPoolConfigBuilder::new()` starts from the defaults. -/
def BrowserPoolConfigBuilder.new : BrowserPoolConfigBuilder :=
  { config := BrowserPoolConfig.default }

/-- Setter `max_pool_size`. -/
def BrowserPoolConfigBuilder.max_pool_size (b : BrowserPoolConfigBuilder) (size : Nat) :
    BrowserPoolConfigBuilder :=
  { b with config := { b.config with max_pool_size := size } }

/-- Setter `warmup_count`. -/
def BrowserPoolConfigBuilder.warmup_count (b : BrowserPoolConfigBuilder) (count : Nat) :
    BrowserPoolConfigBuilder :=
  { b with config := { b.config with warmup_count := count } }

/-- Setter `ping_interval`. -/
def BrowserPoolConfigBuilder.ping_interval (b : BrowserPoolConfigBuilder) (interval : Nat) :
    BrowserPoolConfigBuilder :=
  { b with config := { b.config with ping_interval := interval } }

/-- Setter `browser_ttl`. -/
def BrowserPoolConfigBuilder.browser_ttl (b : BrowserPoolConfigBuilder) (ttl : Nat) :
    BrowserPoolConfigBuilder :=
  { b with config := { b.config with browser_ttl := ttl } }

/-- Setter `max_ping_failures`. -/
def BrowserPoolConfigBuilder.max_ping_failures (b : BrowserPoolConfigBuilder) (failures : Nat) :
    BrowserPoolConfigBuilder :=
  { b with config := { b.config with max_ping_failures := failures } }

/-- Setter `warmup_timeout`. -/
def BrowserPoolConfigBuilder.warmup_timeout (b : BrowserPoolConfigBuilder) (t : Nat) :
    BrowserPoolConfigBuilder :=
  { b with config := { b.config with warmup_timeout := t } }

/-- Source `BrowserPoolConfigBuilder::build` (src/config.rs lines 410-422):
rejects `max_pool_size == 0` and `warmup_count > max_pool_size`, else returns the record. -/
def BrowserPoolConfigBuilder.build (b : BrowserPoolConfigBuilder) :
    Except String BrowserPoolConfig :=
  if b.config.max_pool_size = 0 then
    .error "max_pool_size must be greater than 0"
  else if b.config.max_pool_size < b.config.warmup_count then
    .error "warmup_count cannot exceed max_pool_size"
  else
    .ok b.config

/-- Tracked instance from src/tracked.rs: unique id plus creation instant.
The underlying browser handle and the advisory `last_ping` timestamp play no
role in the claims and are not modelled. -/
structure TrackedBrowser where
  id : Nat
  created_at : Nat
deriving DecidableEq, Repr

/-- Source `TrackedBrowser::age` at time `now` (`created_at.elapsed()`). -/
def TrackedBrowser.age (t : TrackedBrowser) (now : Nat) : Nat :=
  now - t.created_at

/-- Source `TrackedBrowser::is_expired(ttl)`: age strictly greater than ttl. -/
def TrackedBrowser.is_expired (t : TrackedBrowser) (ttl now : Nat) : Bool :=
  ttl < t.age now

/-- The `active` map: `HashMap<u64, TrackedBrowser>` as an association list. -/
abbrev ActiveMap := List (Nat × TrackedBrowser)

/-- Map lookup by key (`HashMap::get`). -/
def aLookup (id : Nat) : ActiveMap → Option TrackedBrowser
  | [] => none
  | p :: rest => if p.1 = id then some p.2 else aLookup id rest

/-- Source `HashMap::contains_key`. -/
def aContains (id : Nat) (m : ActiveMap) : Bool :=
  (aLookup id m).isSome

/-- Source `HashMap::remove` (dropping the returned value). -/
def aErase (id : Nat) (m : ActiveMap) : ActiveMap :=
  m.filter (fun p => p.1 ≠ id)

/-- Source `HashMap::insert` (replacing any previous binding). -/
def aInsert (id : Nat) (t : TrackedBrowser) (m : ActiveMap) : ActiveMap :=
  (id, t) :: aErase id m

/-- Shared pool state (`BrowserPoolInner`): the `available` vector, the
`active` map, the shutdown latch, the spawned replacement requests (count per
spawned task), and the id counter (`TrackedBrowser::NEXT_ID`). -/
structure PoolState where
  available : List TrackedBrowser
  active : ActiveMap
  shutting_down : Bool
  replacement_requests : List Nat
  next_id : Nat
deriving DecidableEq, Repr

/-- A fresh pool state, as built by `BrowserPoolInner::new`. -/
def PoolState.init : PoolState :=
  { available := []
    active := []
    shutting_down := false
    replacement_requests := []
    next_id := 0 }

/-- Pool model produced by `BrowserPoolBuilder::build`. -/
structure BrowserPool where
  config : BrowserPoolConfig
  inner : PoolState
  keep_alive_enabled : Bool
deriving DecidableEq, Repr

/-- Pool builder from src/pool.rs (`BrowserPoolBuilder`): optional config,
optional factory (opaque, so only its presence is modelled), keep-alive flag. -/
structure BrowserPoolBuilder where
  config : Option BrowserPoolConfig
  factory : Option Unit
  enable_keep_alive : Bool
deriving DecidableEq, Repr

/-- Source `BrowserPoolBuilder::build` (src/pool.rs lines 1714-1740): defaults the
config, then fails with `Configuration("No browser factory provided")` when no
factory was supplied; otherwise builds the pool around a fresh inner state. -/
def BrowserPoolBuilder.build (b : BrowserPoolBuilder) :
    Except BrowserPoolError BrowserPool :=
  let config := b.config.getD BrowserPoolConfig.default
  match b.factory with
  | none => .error (.Configuration "No browser factory provided")
  | some _ =>
      .ok { config := config
            inner := PoolState.init
            keep_alive_enabled := b.enable_keep_alive }

/-- Source `BrowserPoolInner::create_browser_direct` (src/pool.rs lines 201-235):
refuse when shutting down; otherwise run the factory and the construction
validation (both external, merged into the oracle `factoryOk`), assign the
next id, and insert the new instance into `active` tracking. Returns the
operation result together with the updated state. -/
def create_browser_direct (factoryOk : Bool) (now : Nat) (s : PoolState) :
    Except BrowserPoolError TrackedBrowser × PoolState :=
  if s.shutting_down then
    (.error .ShuttingDown, s)
  else if factoryOk then
    let t : TrackedBrowser := { id := s.next_id, created_at := now }
    (.ok t, { s with active := aInsert t.id t s.active, next_id := s.next_id + 1 })
  else
    (.error (.BrowserCreation "factory or validation failed"), s)

/-- The pop-and-test loop of `get_or_create_browser` (src/pool.rs lines
268-392), written over the reversed `available` vector so that `Vec::pop`
(take the LAST element) becomes taking the head. For the popped candidate:
if `age + 30 > ttl` (grace-period check) skip it, leaving it in `active`;
else run the full health check (oracle `health`); on success hand it out;
on failure remove it from `active` and continue. -/
def acquire_scan (cfg : BrowserPoolConfig) (health : TrackedBrowser → Bool) (now : Nat) :
    List TrackedBrowser → ActiveMap →
    Option TrackedBrowser × List TrackedBrowser × ActiveMap
  | [], act => (none, [], act)
  | t :: rest, act =>
      if cfg.browser_ttl < t.age now + 30 then
        acquire_scan cfg health now rest act
      else if health t then
        (some t, rest, act)
      else
        acquire_scan cfg health now rest (aErase t.id act)

/-- Source `BrowserPoolInner::get_or_create_browser` (src/pool.rs lines 263-401):
scan the pool (popping from the end); if no pooled browser is handed out,
fall through to `create_browser_direct`. Note the scan itself never checks
the shutdown latch; only the creation path does. -/
def get_or_create_browser (cfg : BrowserPoolConfig) (health : TrackedBrowser → Bool)
    (factoryOk : Bool) (now : Nat) (s : PoolState) :
    Except BrowserPoolError TrackedBrowser × PoolState :=
  let r := acquire_scan cfg health now s.available.reverse s.active
  let s1 : PoolState := { s with available := r.2.1.reverse, active := r.2.2 }
  match r.1 with
  | some t => (.ok t, s1)
  | none => create_browser_direct factoryOk now s1

/-- Source `BrowserPoolInner::return_browser` (src/pool.rs lines 422-505):
skip when shutting down; skip stale returns (id not in `active`); retire
expired instances (remove from `active`, schedule one replacement); skip
duplicate returns; push back when the pool has space; otherwise drop the
instance from `active` (pool full). -/
def return_browser (cfg : BrowserPoolConfig) (now : Nat) (t : TrackedBrowser)
    (s : PoolState) : PoolState :=
  if s.shutting_down then s
  else if ¬ aContains t.id s.active then s
  else if t.is_expired cfg.browser_ttl now then
    { s with active := aErase t.id s.active
             replacement_requests := s.replacement_requests ++ [1] }
  else if s.available.any (fun b => b.id == t.id) then s
  else if s.available.length < cfg.max_pool_size then
    { s with available := s.available ++ [t] }
  else
    { s with active := aErase t.id s.active }

/-- The post-creation insertion step of `spawn_replacement_creation_async`
(src/pool.rs lines 575-597): the space double-check at the moment of
insertion. With space the instance is pushed to the pool; otherwise it is
"kept in active only" (the state is left unchanged: no push, no removal
from `active`). -/
def replacement_insert (cfg : BrowserPoolConfig) (t : TrackedBrowser)
    (s : PoolState) : PoolState :=
  if s.available.length < cfg.max_pool_size then
    { s with available := s.available ++ [t] }
  else s

/-- The loop body of `spawn_replacement_creation_async` (src/pool.rs lines
524-632): per iteration, stop on shutdown, stop when the pool is full,
otherwise create one browser (`create_browser_direct` through
`spawn_blocking`) and, on success, run the insertion double-check; on
failure continue with the next iteration. `factoryOk` is indexed by the
remaining iteration count. -/
def replacement_loop (cfg : BrowserPoolConfig) (factoryOk : Nat → Bool) (now : Nat) :
    Nat → PoolState → PoolState
  | 0, s => s
  | n + 1, s =>
      if s.shutting_down then s
      else if ¬ s.available.length < cfg.max_pool_size then s
      else
        match create_browser_direct (factoryOk n) now s with
        | (.ok t, s1) => replacement_loop cfg factoryOk now n (replacement_insert cfg t s1)
        | (.error _, s1) => replacement_loop cfg factoryOk now n s1

/-- Outcome of the timeout-wrapped `warmup_internal` future (src/pool.rs line
966): either it completed (with a result and the state it produced), or the
`warmup_timeout` elapsed first, leaving the partial state reached so far. -/
inductive WarmupInternalOutcome where
  | completed (r : Except BrowserPoolError Unit) (s : PoolState)
  | timedOut (s : PoolState)
deriving Repr

/-- The pool state carried by a warmup outcome. -/
def WarmupInternalOutcome.state : WarmupInternalOutcome → PoolState
  | .completed _ s => s
  | .timedOut s => s

/-- The result dispatch of `BrowserPool::warmup` (src/pool.rs lines 968-989):
pass a completed result through; on timeout return
`Configuration("Warmup timed out after {warmup_timeout}s")`. No branch
touches the pool state. -/
def warmup_dispatch (cfg : BrowserPoolConfig) :
    WarmupInternalOutcome → Except BrowserPoolError Unit × PoolState
  | .completed (.ok ()) s => (.ok (), s)
  | .completed (.error e) s => (.error e, s)
  | .timedOut s =>
      (.error (.Configuration
        ("Warmup timed out after " ++ toString cfg.warmup_timeout ++ "s")), s)

/-- The failure-counter map owned by the keep-alive loop: `HashMap<u64, u32>`. -/
abbrev CountMap := List (Nat × Nat)

/-- Counter lookup. -/
def cLookup (id : Nat) : CountMap → Option Nat
  | [] => none
  | p :: rest => if p.1 = id then some p.2 else cLookup id rest

/-- Source `failure_counts.entry(id).or_insert(0)` read: current count, defaulting to 0. -/
def cGet (id : Nat) (c : CountMap) : Nat :=
  (cLookup id c).getD 0

/-- Source `failure_counts.remove(&id)`. -/
def cErase (id : Nat) (c : CountMap) : CountMap :=
  c.filter (fun p => p.1 ≠ id)

/-- Store a counter value (the write-back of `*failures += 1`). -/
def cSet (id n : Nat) (c : CountMap) : CountMap :=
  (id, n) :: cErase id c

/-- The per-browser inspection loop of one keep-alive cycle (src/pool.rs lines
1219-1274): walk the snapshot of `active`; expired instances are marked for
retirement and not pinged; a successful ping erases the failure counter; a
failed ping increments it, and when the new count reaches
`max_ping_failures` the id is marked for removal. Returns
(to_remove, expired_browsers, updated counters), each list in iteration
order. -/
def ping_phase (pingOk : Nat → Bool) (ttl maxF now : Nat) :
    List (Nat × TrackedBrowser) → CountMap → List Nat × List Nat × CountMap
  | [], counts => ([], [], counts)
  | (id, t) :: rest, counts =>
      if t.is_expired ttl now then
        let r := ping_phase pingOk ttl maxF now rest counts
        (r.1, id :: r.2.1, r.2.2)
      else if pingOk id then
        ping_phase pingOk ttl maxF now rest (cErase id counts)
      else
        let n := cGet id counts + 1
        let r := ping_phase pingOk ttl maxF now rest (cSet id n counts)
        if maxF ≤ n then (id :: r.1, r.2.1, r.2.2) else r

/-- The shared removal loop of a keep-alive cycle (`handle_browser_retirement`
src/pool.rs lines 1356-1396, and the failed-browser block lines 1289-1325):
for each id, remove it from `active` tracking, counting the ones actually
present, and erase its failure counter. Returns (actually removed, counters,
state). -/
def remove_ids_active : List Nat → CountMap → PoolState → Nat × CountMap × PoolState
  | [], counts, s => (0, counts, s)
  | id :: rest, counts, s =>
      if aContains id s.active then
        let r := remove_ids_active rest (cErase id counts)
          { s with active := aErase id s.active }
        (r.1 + 1, r.2.1, r.2.2)
      else
        remove_ids_active rest (cErase id counts) s

/-- Batch removal: the active-tracking loop followed by
`remove_from_available` (`pool.retain(|b| !ids.contains(&b.id()))`). -/
def remove_batch (ids : List Nat) (counts : CountMap) (s : PoolState) :
    Nat × CountMap × PoolState :=
  let r := remove_ids_active ids counts s
  (r.1, r.2.1,
    { r.2.2 with available := r.2.2.available.filter (fun b => !(ids.contains b.id)) })

/-- One keep-alive cycle after its wait (src/pool.rs lines 1204-1333), with
the shutdown latch read once (the thread exits on any of its checks when the
latch is set, doing no further work): snapshot `active`, run the ping loop,
retire the expired batch (scheduling `retired_count` replacements when
positive), then remove the failed batch (scheduling `actual_removed_count`
replacements when positive). -/
def keep_alive_cycle (cfg : BrowserPoolConfig) (pingOk : Nat → Bool) (now : Nat)
    (s : PoolState) (counts : CountMap) : PoolState × CountMap :=
  if s.shutting_down then (s, counts)
  else
    let r := ping_phase pingOk cfg.browser_ttl cfg.max_ping_failures now s.active counts
    let toRemove := r.1
    let expired := r.2.1
    let counts1 := r.2.2
    let e := if expired.isEmpty then (0, counts1, s) else remove_batch expired counts1 s
    let s1 := if 0 < e.1 then
        { e.2.2 with replacement_requests := e.2.2.replacement_requests ++ [e.1] }
      else e.2.2
    let f := if toRemove.isEmpty then (0, e.2.1, s1) else remove_batch toRemove e.2.1 s1
    let s2 := if 0 < f.1 then
        { f.2.2 with replacement_requests := f.2.2.replacement_requests ++ [f.1] }
      else f.2.2
    (s2, f.2.1)

/-- A pool state with the shutdown latch set and one healthy, fresh instance
still in the pool. -/
def shutdownPoolState : PoolState :=
  { available := [⟨0, 0⟩]
    active := [(0, ⟨0, 0⟩)]
    shutting_down := true
    replacement_requests := []
    next_id := 1 }

/-- A configuration with `max_pool_size = 1`. -/
def onePoolConfig : BrowserPoolConfig :=
  { max_pool_size := 1
    warmup_count := 0
    ping_interval := 15
    browser_ttl := 3600
    max_ping_failures := 3
    warmup_timeout := 60 }

/-- A state in which the pool is already full (one slot, one pooled
instance) while a freshly created replacement with id 1 sits in `active`. -/
def fullPoolState : PoolState :=
  { available := [⟨0, 0⟩]
    active := [(0, ⟨0, 0⟩), (1, ⟨1, 5⟩)]
    shutting_down := false
    replacement_requests := []
    next_id := 2 }

/-- A state with room in the pool and a freshly created instance in `active`. -/
def replState : PoolState :=
  { available := []
    active := [(3, ⟨3, 0⟩)]
    shutting_down := false
    replacement_requests := []
    next_id := 4 }

/-- The cross-collection invariant of the spec: every instance in the pool's
`available` vector is tracked in `active` under its id, with the same
instance as the value. -/
def IdleSubset (s : PoolState) : Prop :=
  ∀ t ∈ s.available, aLookup t.id s.active = some t

/-- The full state invariant: the subset property, uniqueness of ids in both
collections, and freshness of the id counter. -/
def PoolInv (s : PoolState) : Prop :=
  IdleSubset s ∧
  (s.available.map TrackedBrowser.id).Nodup ∧
  (s.active.map Prod.fst).Nodup ∧
  (∀ t ∈ s.available, t.id < s.next_id) ∧
  (∀ p ∈ s.active, p.1 < s.next_id)

/-- Validity of a released lease: the leased instance is not sitting in
`available` (it was popped on acquire), and any `active` entry under its id
is the instance itself (ids are globally unique). -/
def LeaseValid (s : PoolState) (t : TrackedBrowser) : Prop :=
  (∀ u ∈ s.available, u.id ≠ t.id) ∧
  (∀ u, aLookup t.id s.active = some u → u = t)

/-- The batch step of a keep-alive cycle: skip when the id list is empty,
else run the removal batch (abbreviation of the branch in
`keep_alive_cycle`). -/
def cycle_batch (ids : List Nat) (c : CountMap) (x : PoolState) :
    Nat × CountMap × PoolState :=
  if ids.isEmpty then ((0 : Nat), c, x) else remove_batch ids c x

/-- The replacement-scheduling step of a keep-alive cycle: append one request
when anything was actually removed (abbreviation of the branch in
`keep_alive_cycle`). -/
def cycle_requests (e : Nat × CountMap × PoolState) : PoolState :=
  if 0 < e.1 then
    { e.2.2 with replacement_requests := e.2.2.replacement_requests ++ [e.1] }
  else e.2.2

/-- A configuration with `max_ping_failures = 1` for the keep-alive witness. -/
def kaCfg : BrowserPoolConfig :=
  { max_pool_size := 1
    warmup_count := 0
    ping_interval := 15
    browser_ttl := 3600
    max_ping_failures := 1
    warmup_timeout := 60 }

/-- A one-instance tracked state for the keep-alive witness. -/
def kaState : PoolState :=
  { available := []
    active := [(0, ⟨0, 0⟩)]
    shutting_down := false
    replacement_requests := []
    next_id := 1 }

/-- Claim C9: the configuration builder's `build` errors exactly when
`max_pool_size = 0` or `warmup_count > max_pool_size`; on every other input it
returns the configuration record carrying exactly the values that were set
(or the defaults for fields never set, since `new` starts from the defaults
and each setter overwrites a single field). -/
theorem config_builder_build_spec :
    (∀ b : BrowserPoolConfigBuilder,
      ((∃ e, b.build = .error e) ↔
        (b.config.max_pool_size = 0 ∨ b.config.warmup_count > b.config.max_pool_size))) ∧
    (∀ b : BrowserPoolConfigBuilder,
      ¬ (b.config.max_pool_size = 0 ∨ b.config.warmup_count > b.config.max_pool_size) →
        b.build = .ok b.config) ∧
    (∀ m w p ttl f wt,
      ((((((BrowserPoolConfigBuilder.new.max_pool_size m).warmup_count w).ping_interval
          p).browser_ttl ttl).max_ping_failures f).warmup_timeout wt).config =
        ⟨m, w, p, ttl, f, wt⟩) := by
  refine ⟨?_, ?_, ?_⟩
  · intro b
    constructor
    · rintro ⟨e, he⟩
      by_contra hcond
      push_neg at hcond
      simp only [BrowserPoolConfigBuilder.build, if_neg hcond.1,
        if_neg (by omega : ¬ b.config.max_pool_size < b.config.warmup_count)] at he
      exact absurd he (by simp)
    · intro hcond
      unfold BrowserPoolConfigBuilder.build
      rcases hcond with h0 | hgt
      · exact ⟨_, by rw [if_pos h0]⟩
      · by_cases h0 : b.config.max_pool_size = 0
        · exact ⟨_, by rw [if_pos h0]⟩
        · exact ⟨_, by rw [if_neg h0, if_pos hgt]⟩
  · intro b hcond
    push_neg at hcond
    simp only [BrowserPoolConfigBuilder.build, if_neg hcond.1,
      if_neg (by omega : ¬ b.config.max_pool_size < b.config.warmup_count)]
  · intro m w p ttl f wt
    rfl

/-- Witness for C9 at a concrete input: a builder with `max_pool_size = 10`
and `warmup_count = 4` passes validation and returns exactly its record. -/
theorem config_builder_build_spec_witness :
    ((BrowserPoolConfigBuilder.new.max_pool_size 10).warmup_count 4).build =
      .ok ((BrowserPoolConfigBuilder.new.max_pool_size 10).warmup_count 4).config :=
  config_builder_build_spec.2.1 _ (by decide)

/-- Claim C10: `BrowserPoolBuilder::build` with no factory supplied returns the
`Configuration` error with message "No browser factory provided" and constructs
no pool, whether or not a config was supplied. -/
theorem pool_builder_build_no_factory :
    ∀ (cfg : Option BrowserPoolConfig) (ekl : Bool),
      BrowserPoolBuilder.build { config := cfg, factory := none, enable_keep_alive := ekl } =
        .error (.Configuration "No browser factory provided") := by
  intro cfg ekl
  rfl

/-! ### Basic lemmas about the association-map operations -/

theorem aLookup_aErase_self (id : Nat) (m : ActiveMap) :
    aLookup id (aErase id m) = none := by
  induction m with
  | nil => rfl
  | cons p rest ih =>
      by_cases h : p.1 = id
      · simpa [aErase, h] using ih
      · simpa [aErase, aLookup, h] using ih

theorem aLookup_aErase_ne {j id : Nat} (m : ActiveMap) (h : j ≠ id) :
    aLookup j (aErase id m) = aLookup j m := by
  induction m with
  | nil => rfl
  | cons p rest ih =>
      by_cases hp : p.1 = id
      · have he : aErase id (p :: rest) = aErase id rest := by
          simp [aErase, hp]
        rw [he, ih, aLookup, if_neg (by simp [hp]; omega)]
      · have he : aErase id (p :: rest) = p :: aErase id rest := by
          simp [aErase, hp]
        rw [he, aLookup, aLookup]
        by_cases hj : p.1 = j
        · rw [if_pos hj, if_pos hj]
        · rw [if_neg hj, if_neg hj, ih]

theorem aLookup_aInsert_self (id : Nat) (t : TrackedBrowser) (m : ActiveMap) :
    aLookup id (aInsert id t m) = some t := by
  simp [aInsert, aLookup]

theorem aLookup_aInsert_ne {j id : Nat} (t : TrackedBrowser) (m : ActiveMap) (h : j ≠ id) :
    aLookup j (aInsert id t m) = aLookup j m := by
  rw [aInsert, aLookup, if_neg (by omega : ¬ id = j), aLookup_aErase_ne m h]

theorem aLookup_mem {id : Nat} {t : TrackedBrowser} {m : ActiveMap}
    (h : aLookup id m = some t) : (id, t) ∈ m := by
  induction m with
  | nil => exact absurd h (by simp [aLookup])
  | cons p rest ih =>
      rw [aLookup] at h
      by_cases hp : p.1 = id
      · rw [if_pos hp] at h
        have hpe : p = (id, t) := Prod.ext_iff.2 ⟨hp, Option.some.inj h⟩
        rw [hpe]
        exact List.mem_cons_self _ _
      · rw [if_neg hp] at h
        exact List.mem_cons_of_mem _ (ih h)

theorem mem_aErase {p : Nat × TrackedBrowser} {id : Nat} {m : ActiveMap}
    (h : p ∈ aErase id m) : p ∈ m :=
  List.mem_of_mem_filter h

theorem aErase_keys_nodup {id : Nat} {m : ActiveMap}
    (h : (m.map Prod.fst).Nodup) : ((aErase id m).map Prod.fst).Nodup :=
  ((List.filter_sublist m).map Prod.fst).nodup h

theorem aLookup_eq_none_of_not_mem_keys {id : Nat} {m : ActiveMap}
    (h : id ∉ m.map Prod.fst) : aLookup id m = none := by
  induction m with
  | nil => rfl
  | cons p rest ih =>
      simp only [List.map_cons, List.mem_cons, not_or] at h
      rw [aLookup, if_neg (fun hp => h.1 hp.symm)]
      exact ih h.2

theorem aInsert_keys_nodup {id : Nat} {t : TrackedBrowser} {m : ActiveMap}
    (h : (m.map Prod.fst).Nodup) : ((aInsert id t m).map Prod.fst).Nodup := by
  rw [aInsert, List.map_cons]
  refine List.nodup_cons.2 ⟨?_, aErase_keys_nodup h⟩
  intro hmem
  obtain ⟨p, hp, hfst⟩ := List.mem_map.1 hmem
  have := List.mem_filter.1 hp
  simp only [decide_eq_true_eq] at this
  exact this.2 hfst

theorem aContains_aErase_ne {i j : Nat} (m : ActiveMap) (h : i ≠ j) :
    aContains i (aErase j m) = aContains i m := by
  rw [aContains, aContains, aLookup_aErase_ne m h]

theorem aContains_of_mem_keys {id : Nat} {m : ActiveMap}
    (h : id ∈ m.map Prod.fst) : aContains id m = true := by
  induction m with
  | nil => simp at h
  | cons p rest ih =>
      simp only [List.map_cons, List.mem_cons] at h
      rw [aContains, aLookup]
      by_cases hp : p.1 = id
      · simp [hp]
      · rw [if_neg hp]
        exact ih (h.resolve_left fun he => hp he.symm)

/-! ### Claim C8: warmup timeout -/

/-- Claim C8: when the warmup phase does not complete within `warmup_timeout`,
`warmup` returns the `Configuration` error kind with a message stating that
warmup timed out, and the pool state reached so far is left in place (no
branch of the dispatch modifies the state). -/
theorem warmup_timeout_spec :
    (∀ (cfg : BrowserPoolConfig) (s : PoolState),
      warmup_dispatch cfg (.timedOut s) =
        (.error (.Configuration
          ("Warmup timed out after " ++ toString cfg.warmup_timeout ++ "s")), s)) ∧
    (∀ (cfg : BrowserPoolConfig) (o : WarmupInternalOutcome),
      (warmup_dispatch cfg o).2 = o.state) := by
  constructor
  · intro cfg s
    rfl
  · intro cfg o
    match o with
    | .completed (.ok ()) s => rfl
    | .completed (.error e) s => rfl
    | .timedOut s => rfl

/-! ### Claim C5: expired instance on the return path -/

/-- Claim C5: releasing a lease while the pool is not shutting down, with the
instance still tracked in `active` and expired, removes the instance from
`active`, pushes nothing onto `available`, and schedules exactly one
replacement task (of one browser). -/
theorem return_browser_expired_spec (cfg : BrowserPoolConfig) (now : Nat)
    (t : TrackedBrowser) (s : PoolState)
    (hns : s.shutting_down = false)
    (hin : aContains t.id s.active = true)
    (hexp : t.is_expired cfg.browser_ttl now = true) :
    return_browser cfg now t s =
      { s with active := aErase t.id s.active
               replacement_requests := s.replacement_requests ++ [1] } ∧
    (return_browser cfg now t s).available = s.available ∧
    aLookup t.id (return_browser cfg now t s).active = none := by
  have heq : return_browser cfg now t s =
      { s with active := aErase t.id s.active
               replacement_requests := s.replacement_requests ++ [1] } := by
    unfold return_browser
    rw [hns, if_neg (by simp), if_neg (by simp [hin]), if_pos hexp]
  exact ⟨heq, by rw [heq], by rw [heq]; exact aLookup_aErase_self t.id s.active⟩

/-- Witness for C5: a concrete expired instance is retired and one
replacement is requested. -/
theorem return_browser_expired_spec_witness :
    return_browser BrowserPoolConfig.default 4000 ⟨7, 0⟩
      { available := [], active := [(7, ⟨7, 0⟩)], shutting_down := false,
        replacement_requests := [], next_id := 8 } =
      { available := [], active := [], shutting_down := false,
        replacement_requests := [1], next_id := 8 } := by
  have h := return_browser_expired_spec BrowserPoolConfig.default 4000 ⟨7, 0⟩
    { available := [], active := [(7, ⟨7, 0⟩)], shutting_down := false,
      replacement_requests := [], next_id := 8 }
    (by decide) (by decide) (by decide)
  exact h.1.trans (by decide)

/-! ### Claim C3: grace-period bound on pooled leases -/

/-- Claim C3: every lease that `acquire` hands out by popping a candidate from
the pool satisfied `age + 30 ≤ browser_ttl` at the moment it was popped; a
popped candidate with `age + 30 > browser_ttl` is skipped, never handed out. -/
theorem acquire_grace_margin_spec (cfg : BrowserPoolConfig)
    (health : TrackedBrowser → Bool) (now : Nat) :
    ∀ (avail : List TrackedBrowser) (act : ActiveMap) (t : TrackedBrowser)
      (rest : List TrackedBrowser) (act' : ActiveMap),
      acquire_scan cfg health now avail act = (some t, rest, act') →
      t.age now + 30 ≤ cfg.browser_ttl := by
  intro avail
  induction avail with
  | nil =>
      intro act t rest act' h
      exact absurd h (by simp [acquire_scan])
  | cons u us ih =>
      intro act t rest act' h
      rw [acquire_scan] at h
      by_cases hg : cfg.browser_ttl < u.age now + 30
      · exact ih act t rest act' (by rwa [if_pos hg] at h)
      · rw [if_neg hg] at h
        by_cases hh : health u
        · rw [if_pos hh] at h
          obtain ⟨rfl, -, -⟩ : u = t ∧ us = rest ∧ act = act' := by
            refine ⟨?_, ?_, ?_⟩ <;> cases h <;> rfl
          omega
        · exact ih _ t rest act' (by rwa [if_neg hh] at h)

/-- Witness for C3: a concrete scan that hands out a pooled instance, whose
age plus the 30 s margin is within the TTL. -/
theorem acquire_grace_margin_spec_witness :
    (⟨0, 0⟩ : TrackedBrowser).age 0 + 30 ≤ BrowserPoolConfig.default.browser_ttl :=
  acquire_grace_margin_spec BrowserPoolConfig.default (fun _ => true) 0
    [⟨0, 0⟩] [] ⟨0, 0⟩ [] [] (by decide)

/-! ### Claim C1: acquire after the shutdown latch is set -/

/-- Counterexample to C1 as stated: with the shutdown latch set but a healthy
instance still in `available`, `get_or_create_browser` hands out a lease
instead of returning `ShuttingDown` (the scan loop never consults the
latch; only the creation path does). -/
theorem acquire_after_shutdown_cex :
    shutdownPoolState.shutting_down = true ∧
    (get_or_create_browser BrowserPoolConfig.default (fun _ => true) true 0
        shutdownPoolState).1 = .ok ⟨0, 0⟩ :=
  ⟨rfl, rfl⟩

/-- Claim C1 (amended): after the shutdown latch is set, `acquire` never
creates a new instance: either the pop-and-test scan hands out an instance
that was still in the pool, or the call returns the `ShuttingDown` error (in
particular it always returns `ShuttingDown` when the pool yields no
candidate). -/
theorem acquire_after_shutdown_spec (cfg : BrowserPoolConfig)
    (health : TrackedBrowser → Bool) (factoryOk : Bool) (now : Nat) (s : PoolState)
    (hsd : s.shutting_down = true) :
    (get_or_create_browser cfg health factoryOk now s).1 = .error .ShuttingDown ∨
    ∃ t rest act',
      acquire_scan cfg health now s.available.reverse s.active = (some t, rest, act') ∧
      (get_or_create_browser cfg health factoryOk now s).1 = .ok t := by
  unfold get_or_create_browser
  rcases hr : acquire_scan cfg health now s.available.reverse s.active with ⟨o, rest, act'⟩
  match o with
  | some t =>
      exact Or.inr ⟨t, rest, act', rfl, rfl⟩
  | none =>
      refine Or.inl ?_
      simp [create_browser_direct, hsd]

/-- Witness for C1 (amended): with the latch set and an empty pool, the call
returns `ShuttingDown`. -/
theorem acquire_after_shutdown_spec_witness :
    (get_or_create_browser BrowserPoolConfig.default (fun _ => true) true 0
        { PoolState.init with shutting_down := true }).1 = .error .ShuttingDown ∨
    ∃ t rest act',
      acquire_scan BrowserPoolConfig.default (fun _ => true) 0
          ({ PoolState.init with shutting_down := true } : PoolState).available.reverse
          ({ PoolState.init with shutting_down := true } : PoolState).active =
        (some t, rest, act') ∧
      (get_or_create_browser BrowserPoolConfig.default (fun _ => true) true 0
          { PoolState.init with shutting_down := true }).1 = .ok t :=
  acquire_after_shutdown_spec _ _ _ _ _ rfl

/-! ### Claim C2: replacement task insertion when the pool is full -/

/-- Counterexample to C2 as stated: when the pool is full at the moment of
insertion, the successfully created replacement instance is NOT dropped from
tracking: it stays in `active` ("kept in active only"), so it is still
tracked by the pool in one collection. -/
theorem replacement_insert_full_pool_cex :
    ¬ (fullPoolState.available.length < onePoolConfig.max_pool_size) ∧
    (replacement_insert onePoolConfig ⟨1, 5⟩ fullPoolState).available =
      fullPoolState.available ∧
    aLookup 1 (replacement_insert onePoolConfig ⟨1, 5⟩ fullPoolState).active =
      some ⟨1, 5⟩ := by
  refine ⟨by decide, rfl, rfl⟩

/-- Claim C2 (amended): for a replacement task that successfully created and
validated an instance, if `|available| < max_pool_size` at the moment of
insertion the instance is pushed onto the pool; otherwise it is not pushed,
and it remains tracked in `active` (it is not dropped from the pool's
tracking). -/
theorem replacement_insert_spec (cfg : BrowserPoolConfig) (t : TrackedBrowser)
    (s : PoolState) (htrack : aLookup t.id s.active = some t) :
    (s.available.length < cfg.max_pool_size →
      replacement_insert cfg t s = { s with available := s.available ++ [t] }) ∧
    (¬ s.available.length < cfg.max_pool_size →
      (replacement_insert cfg t s).available = s.available ∧
      aLookup t.id (replacement_insert cfg t s).active = some t) := by
  constructor
  · intro h
    rw [replacement_insert, if_pos h]
  · intro h
    rw [replacement_insert, if_neg h]
    exact ⟨rfl, htrack⟩

/-- Witness for C2 (amended) at a concrete tracked instance. -/
theorem replacement_insert_spec_witness :
    (replState.available.length < BrowserPoolConfig.default.max_pool_size →
      replacement_insert BrowserPoolConfig.default ⟨3, 0⟩ replState =
        { replState with available := replState.available ++ [⟨3, 0⟩] }) ∧
    (¬ replState.available.length < BrowserPoolConfig.default.max_pool_size →
      (replacement_insert BrowserPoolConfig.default ⟨3, 0⟩ replState).available =
        replState.available ∧
      aLookup (⟨3, 0⟩ : TrackedBrowser).id
        (replacement_insert BrowserPoolConfig.default ⟨3, 0⟩ replState).active =
        some ⟨3, 0⟩) :=
  replacement_insert_spec _ _ _ (by decide)

/-! ### Claim C7: acquire / release / acquire round trip -/

theorem acquire_scan_singleton (cfg : BrowserPoolConfig) (health : TrackedBrowser → Bool)
    (now : Nat) (t : TrackedBrowser) (act : ActiveMap)
    (hgrace : t.age now + 30 ≤ cfg.browser_ttl) (hh : health t = true) :
    acquire_scan cfg health now [t] act = (some t, [], act) := by
  rw [acquire_scan, if_neg (by omega), if_pos hh]

/-- Claim C7: with `available` holding exactly one instance `t`, acquiring
pops it (LIFO: pop from the end), releasing it (not expired, not shutting
down) pushes it back to the end, and a second acquire yields the same
instance. -/
theorem acquire_release_acquire_roundtrip (cfg : BrowserPoolConfig)
    (health : TrackedBrowser → Bool) (factoryOk : Bool) (now0 now1 now2 : Nat)
    (t : TrackedBrowser) (s : PoolState)
    (havail : s.available = [t])
    (hns : s.shutting_down = false)
    (hact : aLookup t.id s.active = some t)
    (hgrace0 : t.age now0 + 30 ≤ cfg.browser_ttl)
    (hhealth : health t = true)
    (hexp : t.is_expired cfg.browser_ttl now1 = false)
    (hmax : 0 < cfg.max_pool_size)
    (hgrace2 : t.age now2 + 30 ≤ cfg.browser_ttl) :
    get_or_create_browser cfg health factoryOk now0 s = (.ok t, { s with available := [] }) ∧
    return_browser cfg now1 t { s with available := [] } = { s with available := [t] } ∧
    (get_or_create_browser cfg health factoryOk now2 { s with available := [t] }).1 =
      .ok t := by
  have hrev : s.available.reverse = [t] := by rw [havail]; rfl
  have hget0 : get_or_create_browser cfg health factoryOk now0 s =
      (.ok t, { s with available := [] }) := by
    unfold get_or_create_browser
    rw [hrev, acquire_scan_singleton cfg health now0 t s.active hgrace0 hhealth]
    rfl
  have hcontains : aContains t.id s.active = true := by simp [aContains, hact]
  have hret : return_browser cfg now1 t { s with available := [] } =
      { s with available := [t] } := by
    simp [return_browser, hns, hcontains, hexp, hmax]
  have hget2 : (get_or_create_browser cfg health factoryOk now2
      { s with available := [t] }).1 = .ok t := by
    unfold get_or_create_browser
    have h2 : ({ s with available := [t] } : PoolState).available.reverse = [t] := rfl
    rw [h2, acquire_scan_singleton cfg health now2 t s.active hgrace2 hhealth]
  exact ⟨hget0, hret, hget2⟩

/-- Witness for C7 at a concrete one-instance pool. -/
theorem acquire_release_acquire_roundtrip_witness :
    get_or_create_browser BrowserPoolConfig.default (fun _ => true) true 0
        { available := [⟨0, 0⟩], active := [(0, ⟨0, 0⟩)], shutting_down := false,
          replacement_requests := [], next_id := 1 } =
      (.ok ⟨0, 0⟩,
        { available := [], active := [(0, ⟨0, 0⟩)], shutting_down := false,
          replacement_requests := [], next_id := 1 }) ∧
    return_browser BrowserPoolConfig.default 0 ⟨0, 0⟩
        { available := [], active := [(0, ⟨0, 0⟩)], shutting_down := false,
          replacement_requests := [], next_id := 1 } =
      { available := [⟨0, 0⟩], active := [(0, ⟨0, 0⟩)], shutting_down := false,
        replacement_requests := [], next_id := 1 } ∧
    (get_or_create_browser BrowserPoolConfig.default (fun _ => true) true 0
        { available := [⟨0, 0⟩], active := [(0, ⟨0, 0⟩)], shutting_down := false,
          replacement_requests := [], next_id := 1 }).1 = .ok ⟨0, 0⟩ := by
  have h := acquire_release_acquire_roundtrip BrowserPoolConfig.default (fun _ => true)
    true 0 0 0 ⟨0, 0⟩
    { available := [⟨0, 0⟩], active := [(0, ⟨0, 0⟩)], shutting_down := false,
      replacement_requests := [], next_id := 1 }
    rfl rfl (by decide) (by decide) rfl (by decide) (by decide) (by decide)
  exact h

/-! ### Claim C4: `available` is a subset of `active` -/

theorem create_browser_direct_ok {f : Bool} {now : Nat} {s : PoolState}
    {t : TrackedBrowser} {s1 : PoolState}
    (h : create_browser_direct f now s = (.ok t, s1)) :
    t = ⟨s.next_id, now⟩ ∧
    s1 = { s with active := aInsert s.next_id ⟨s.next_id, now⟩ s.active
                  next_id := s.next_id + 1 } := by
  unfold create_browser_direct at h
  by_cases hs : s.shutting_down
  · rw [if_pos hs] at h
    exact absurd (congrArg Prod.fst h) (by simp)
  · rw [if_neg hs] at h
    by_cases hf : f
    · rw [if_pos hf] at h
      obtain ⟨h1, h2⟩ := Prod.mk.injEq .. ▸ h
      exact ⟨(Except.ok.inj h1).symm, h2.symm⟩
    · rw [if_neg hf] at h
      exact absurd (congrArg Prod.fst h) (by simp)

theorem create_browser_direct_err {f : Bool} {now : Nat} {s : PoolState}
    {e : BrowserPoolError} {s1 : PoolState}
    (h : create_browser_direct f now s = (.error e, s1)) : s1 = s := by
  unfold create_browser_direct at h
  by_cases hs : s.shutting_down
  · rw [if_pos hs] at h
    exact (congrArg Prod.snd h).symm
  · rw [if_neg hs] at h
    by_cases hf : f
    · rw [if_pos hf] at h
      exact absurd (congrArg Prod.fst h) (by simp)
    · rw [if_neg hf] at h
      exact (congrArg Prod.snd h).symm

theorem create_browser_direct_inv {f : Bool} {now : Nat} {s : PoolState}
    (hinv : PoolInv s) : PoolInv (create_browser_direct f now s).2 := by
  unfold create_browser_direct
  by_cases hs : s.shutting_down
  · rw [if_pos hs]
    exact hinv
  · rw [if_neg hs]
    by_cases hf : f
    · rw [if_pos hf]
      obtain ⟨hsub, hnav, hnact, hbav, hbact⟩ := hinv
      refine ⟨?_, hnav, aInsert_keys_nodup hnact, ?_, ?_⟩
      · intro u hu
        have hu' : u ∈ s.available := hu
        have hne : u.id ≠ s.next_id := by
          have := hbav u hu'
          omega
        show aLookup u.id (aInsert s.next_id ⟨s.next_id, now⟩ s.active) = some u
        rw [aLookup_aInsert_ne _ _ hne]
        exact hsub u hu'
      · intro u hu
        have hu' : u ∈ s.available := hu
        show u.id < s.next_id + 1
        have := hbav u hu'
        omega
      · intro p hp
        have hp' : p ∈ aInsert s.next_id ⟨s.next_id, now⟩ s.active := hp
        show p.1 < s.next_id + 1
        rcases List.mem_cons.1 hp' with hph | hpt
        · rw [hph]
          omega
        · have := hbact p (mem_aErase hpt)
          omega
    · rw [if_neg hf]
      exact hinv

theorem acquire_scan_preserves (cfg : BrowserPoolConfig)
    (health : TrackedBrowser → Bool) (now : Nat) :
    ∀ (avail : List TrackedBrowser) (act : ActiveMap),
      (∀ u ∈ avail, aLookup u.id act = some u) →
      (avail.map TrackedBrowser.id).Nodup →
      (act.map Prod.fst).Nodup →
      (∀ u ∈ (acquire_scan cfg health now avail act).2.1, u ∈ avail) ∧
      (∀ u ∈ (acquire_scan cfg health now avail act).2.1,
        aLookup u.id (acquire_scan cfg health now avail act).2.2 = some u) ∧
      ((acquire_scan cfg health now avail act).2.1.map TrackedBrowser.id).Nodup ∧
      ((acquire_scan cfg health now avail act).2.2.map Prod.fst).Nodup ∧
      (∀ p ∈ (acquire_scan cfg health now avail act).2.2, p ∈ act) := by
  intro avail
  induction avail with
  | nil =>
      intro act hsub hnav hnact
      simp [acquire_scan]
      exact hnact
  | cons u us ih =>
      intro act hsub hnav hnact
      have hus : ∀ v ∈ us, aLookup v.id act = some v := fun v hv =>
        hsub v (List.mem_cons_of_mem _ hv)
      have hnus : (us.map TrackedBrowser.id).Nodup := (List.nodup_cons.1 hnav).2
      have huid : u.id ∉ us.map TrackedBrowser.id := (List.nodup_cons.1 hnav).1
      rw [acquire_scan]
      by_cases hg : cfg.browser_ttl < u.age now + 30
      · rw [if_pos hg]
        obtain ⟨a, b, c, d, e⟩ := ih act hus hnus hnact
        exact ⟨fun v hv => List.mem_cons_of_mem _ (a v hv), b, c, d, e⟩
      · rw [if_neg hg]
        by_cases hh : health u
        · rw [if_pos hh]
          exact ⟨fun v hv => List.mem_cons_of_mem _ hv, hus, hnus, hnact, fun p hp => hp⟩
        · rw [if_neg hh]
          have hsub2 : ∀ v ∈ us, aLookup v.id (aErase u.id act) = some v := by
            intro v hv
            have hne : v.id ≠ u.id := fun he =>
              huid (he ▸ List.mem_map_of_mem TrackedBrowser.id hv)
            rw [aLookup_aErase_ne _ hne]
            exact hus v hv
          obtain ⟨a, b, c, d, e⟩ := ih (aErase u.id act) hsub2 hnus (aErase_keys_nodup hnact)
          exact ⟨fun v hv => List.mem_cons_of_mem _ (a v hv), b, c, d,
            fun p hp => mem_aErase (e p hp)⟩

theorem get_or_create_browser_inv {cfg : BrowserPoolConfig}
    {health : TrackedBrowser → Bool} {factoryOk : Bool} {now : Nat} {s : PoolState}
    (hinv : PoolInv s) : PoolInv (get_or_create_browser cfg health factoryOk now s).2 := by
  obtain ⟨hsub, hnav, hnact, hbav, hbact⟩ := hinv
  have hsubr : ∀ u ∈ s.available.reverse, aLookup u.id s.active = some u := fun u hu =>
    hsub u (List.mem_reverse.1 hu)
  have hnavr : (s.available.reverse.map TrackedBrowser.id).Nodup := by
    rw [List.map_reverse]
    exact List.nodup_reverse.2 hnav
  obtain ⟨ha, hb, hc, hd, he⟩ :=
    acquire_scan_preserves cfg health now s.available.reverse s.active hsubr hnavr hnact
  rcases hr : acquire_scan cfg health now s.available.reverse s.active with ⟨o, rest, act'⟩
  rw [hr] at ha hb hc hd he
  have hinv1 : PoolInv { s with available := rest.reverse, active := act' } := by
    refine ⟨?_, ?_, hd, ?_, ?_⟩
    · intro u hu
      exact hb u (List.mem_reverse.1 hu)
    · rw [List.map_reverse]
      exact List.nodup_reverse.2 hc
    · intro u hu
      exact hbav u (List.mem_reverse.1 (ha u (List.mem_reverse.1 hu)))
    · intro p hp
      exact hbact p (he p hp)
  unfold get_or_create_browser
  rw [hr]
  match o with
  | some t => exact hinv1
  | none => exact create_browser_direct_inv hinv1

theorem return_browser_inv {cfg : BrowserPoolConfig} {now : Nat}
    {t : TrackedBrowser} {s : PoolState}
    (hinv : PoolInv s) (hlease : LeaseValid s t) :
    PoolInv (return_browser cfg now t s) := by
  obtain ⟨hsub, hnav, hnact, hbav, hbact⟩ := hinv
  obtain ⟨hout, huniq⟩ := hlease
  unfold return_browser
  by_cases hs : s.shutting_down = true
  · rw [if_pos hs]
    exact ⟨hsub, hnav, hnact, hbav, hbact⟩
  · rw [if_neg hs]
    by_cases hc : aContains t.id s.active = true
    · rw [if_neg (by simp [hc])]
      have hfound : aLookup t.id s.active = some t := by
        rcases ho : aLookup t.id s.active with _ | u
        · rw [aContains, ho] at hc
          simp at hc
        · rw [huniq u ho]
      have herase : PoolInv { s with active := aErase t.id s.active } := by
        refine ⟨?_, hnav, aErase_keys_nodup hnact, hbav, ?_⟩
        · intro u hu
          rw [aLookup_aErase_ne _ (hout u hu)]
          exact hsub u hu
        · intro p hp
          exact hbact p (mem_aErase hp)
      by_cases hexp : t.is_expired cfg.browser_ttl now = true
      · rw [if_pos hexp]
        exact ⟨herase.1, herase.2.1, herase.2.2.1, herase.2.2.2.1, herase.2.2.2.2⟩
      · rw [if_neg hexp]
        by_cases hdup : s.available.any (fun b => b.id == t.id) = true
        · rw [if_pos hdup]
          exact ⟨hsub, hnav, hnact, hbav, hbact⟩
        · rw [if_neg hdup]
          by_cases hspace : s.available.length < cfg.max_pool_size
          · rw [if_pos hspace]
            refine ⟨?_, ?_, hnact, ?_, hbact⟩
            · intro u hu
              rcases List.mem_append.1 hu with hul | hur
              · exact hsub u hul
              · rw [List.mem_singleton.1 hur]
                exact hfound
            · rw [List.map_append]
              rw [List.nodup_append]
              refine ⟨hnav, List.nodup_singleton _, ?_⟩
              intro a hal har
              obtain ⟨u, hu, rfl⟩ := List.mem_map.1 hal
              exact hout u hu (List.mem_singleton.1 har)
            · intro u hu
              rcases List.mem_append.1 hu with hul | hur
              · exact hbav u hul
              · rw [List.mem_singleton.1 hur]
                exact hbact _ (aLookup_mem hfound)
          · rw [if_neg hspace]
            exact ⟨herase.1, herase.2.1, herase.2.2.1, herase.2.2.2.1, herase.2.2.2.2⟩
    · rw [if_pos (by simp [hc])]
      exact ⟨hsub, hnav, hnact, hbav, hbact⟩

theorem remove_ids_active_fields (ids : List Nat) :
    ∀ (c : CountMap) (s : PoolState),
      (remove_ids_active ids c s).2.2.available = s.available ∧
      (remove_ids_active ids c s).2.2.shutting_down = s.shutting_down ∧
      (remove_ids_active ids c s).2.2.replacement_requests = s.replacement_requests ∧
      (remove_ids_active ids c s).2.2.next_id = s.next_id := by
  induction ids with
  | nil =>
      intro c s
      exact ⟨rfl, rfl, rfl, rfl⟩
  | cons id rest ih =>
      intro c s
      rw [remove_ids_active]
      by_cases hc : aContains id s.active = true
      · rw [if_pos hc]
        exact ih (cErase id c) { s with active := aErase id s.active }
      · rw [if_neg hc]
        exact ih (cErase id c) s

theorem remove_ids_active_lookup (ids : List Nat) :
    ∀ (c : CountMap) (s : PoolState) (j : Nat),
      aLookup j (remove_ids_active ids c s).2.2.active =
        if j ∈ ids then none else aLookup j s.active := by
  induction ids with
  | nil =>
      intro c s j
      simp [remove_ids_active]
  | cons id rest ih =>
      intro c s j
      rw [remove_ids_active]
      by_cases hc : aContains id s.active = true
      · rw [if_pos hc, ih]
        by_cases hj : j = id
        · subst hj
          rw [if_pos (List.mem_cons_self _ _)]
          by_cases hjr : j ∈ rest
          · rw [if_pos hjr]
          · rw [if_neg hjr, aLookup_aErase_self]
        · by_cases hjr : j ∈ rest
          · rw [if_pos hjr, if_pos (List.mem_cons_of_mem _ hjr)]
          · rw [if_neg hjr, if_neg (by simp [hj, hjr]), aLookup_aErase_ne _ hj]
      · rw [if_neg hc, ih]
        by_cases hj : j = id
        · subst hj
          rw [if_pos (List.mem_cons_self _ _)]
          by_cases hjr : j ∈ rest
          · rw [if_pos hjr]
          · rw [if_neg hjr]
            rcases ho : aLookup j s.active with _ | u
            · rfl
            · rw [aContains, ho] at hc
              simp at hc
        · by_cases hjr : j ∈ rest
          · rw [if_pos hjr, if_pos (List.mem_cons_of_mem _ hjr)]
          · rw [if_neg hjr, if_neg (by simp [hj, hjr])]

theorem remove_ids_active_mem (ids : List Nat) :
    ∀ (c : CountMap) (s : PoolState) (p : Nat × TrackedBrowser),
      p ∈ (remove_ids_active ids c s).2.2.active → p ∈ s.active := by
  induction ids with
  | nil =>
      intro c s p hp
      exact hp
  | cons id rest ih =>
      intro c s p hp
      rw [remove_ids_active] at hp
      by_cases hc : aContains id s.active = true
      · rw [if_pos hc] at hp
        exact mem_aErase (ih (cErase id c) _ p hp)
      · rw [if_neg hc] at hp
        exact ih (cErase id c) s p hp

theorem remove_ids_active_keys_nodup (ids : List Nat) :
    ∀ (c : CountMap) (s : PoolState),
      (s.active.map Prod.fst).Nodup →
      ((remove_ids_active ids c s).2.2.active.map Prod.fst).Nodup := by
  induction ids with
  | nil =>
      intro c s h
      exact h
  | cons id rest ih =>
      intro c s h
      rw [remove_ids_active]
      by_cases hc : aContains id s.active = true
      · rw [if_pos hc]
        exact ih (cErase id c) _ (aErase_keys_nodup h)
      · rw [if_neg hc]
        exact ih (cErase id c) s h

theorem remove_batch_inv {ids : List Nat} {c : CountMap} {s : PoolState}
    (hinv : PoolInv s) : PoolInv (remove_batch ids c s).2.2 := by
  obtain ⟨hsub, hnav, hnact, hbav, hbact⟩ := hinv
  obtain ⟨hfa, -, -, hfn⟩ := remove_ids_active_fields ids c s
  refine ⟨?_, ?_, ?_, ?_, ?_⟩
  · intro u hu
    have hu' : u ∈ (remove_ids_active ids c s).2.2.available.filter
        (fun b => !(ids.contains b.id)) := hu
    have hmem := List.mem_of_mem_filter hu'
    rw [hfa] at hmem
    have hnid : u.id ∉ ids := by
      have := List.of_mem_filter hu'
      simpa using this
    show aLookup u.id (remove_ids_active ids c s).2.2.active = some u
    rw [remove_ids_active_lookup, if_neg hnid]
    exact hsub u hmem
  · show (((remove_ids_active ids c s).2.2.available.filter
        (fun b => !(ids.contains b.id))).map TrackedBrowser.id).Nodup
    rw [hfa]
    exact ((List.filter_sublist _).map TrackedBrowser.id).nodup hnav
  · exact remove_ids_active_keys_nodup ids c s hnact
  · intro u hu
    have hu' : u ∈ (remove_ids_active ids c s).2.2.available.filter
        (fun b => !(ids.contains b.id)) := hu
    have hmem := List.mem_of_mem_filter hu'
    rw [hfa] at hmem
    show u.id < (remove_ids_active ids c s).2.2.next_id
    rw [hfn]
    exact hbav u hmem
  · intro p hp
    have hp' : p ∈ (remove_ids_active ids c s).2.2.active := hp
    show p.1 < (remove_ids_active ids c s).2.2.next_id
    rw [hfn]
    exact hbact p (remove_ids_active_mem ids c s p hp')

theorem pool_inv_requests {s : PoolState} {r : List Nat}
    (hinv : PoolInv s) : PoolInv { s with replacement_requests := r } :=
  hinv

theorem pool_inv_if_batch {P : Prop} [Decidable P] {ids : List Nat}
    {c0 c : CountMap} {x : PoolState} (h : PoolInv x) :
    PoolInv (if P then ((0 : Nat), c0, x) else remove_batch ids c x).2.2 := by
  by_cases hp : P
  · rw [if_pos hp]
    exact h
  · rw [if_neg hp]
    exact remove_batch_inv h

theorem pool_inv_if_requests {e : Nat × CountMap × PoolState} (h : PoolInv e.2.2) :
    PoolInv (if 0 < e.1 then
      { e.2.2 with replacement_requests := e.2.2.replacement_requests ++ [e.1] }
    else e.2.2) := by
  by_cases hp : 0 < e.1
  · rw [if_pos hp]
    exact pool_inv_requests h
  · rw [if_neg hp]
    exact h

theorem keep_alive_cycle_inv {cfg : BrowserPoolConfig} {pingOk : Nat → Bool}
    {now : Nat} {s : PoolState} {counts : CountMap}
    (hinv : PoolInv s) : PoolInv (keep_alive_cycle cfg pingOk now s counts).1 := by
  unfold keep_alive_cycle
  by_cases hs : s.shutting_down
  · rw [if_pos hs]
    exact hinv
  · rw [if_neg hs]
    exact pool_inv_if_requests (pool_inv_if_batch
      (pool_inv_if_requests (pool_inv_if_batch hinv)))

theorem replacement_insert_inv {cfg : BrowserPoolConfig} {t : TrackedBrowser}
    {s : PoolState} (hinv : PoolInv s)
    (htrack : aLookup t.id s.active = some t)
    (hfresh : ∀ u ∈ s.available, u.id ≠ t.id) :
    PoolInv (replacement_insert cfg t s) := by
  obtain ⟨hsub, hnav, hnact, hbav, hbact⟩ := hinv
  unfold replacement_insert
  by_cases hspace : s.available.length < cfg.max_pool_size
  · rw [if_pos hspace]
    refine ⟨?_, ?_, hnact, ?_, hbact⟩
    · intro u hu
      rcases List.mem_append.1 hu with hul | hur
      · exact hsub u hul
      · rw [List.mem_singleton.1 hur]
        exact htrack
    · rw [List.map_append, List.nodup_append]
      refine ⟨hnav, List.nodup_singleton _, ?_⟩
      intro a hal har
      obtain ⟨u, hu, rfl⟩ := List.mem_map.1 hal
      exact hfresh u hu (List.mem_singleton.1 har)
    · intro u hu
      rcases List.mem_append.1 hu with hul | hur
      · exact hbav u hul
      · rw [List.mem_singleton.1 hur]
        exact hbact _ (aLookup_mem htrack)
  · rw [if_neg hspace]
    exact ⟨hsub, hnav, hnact, hbav, hbact⟩

theorem replacement_loop_inv (cfg : BrowserPoolConfig) (factoryOk : Nat → Bool)
    (now : Nat) :
    ∀ (n : Nat) (s : PoolState), PoolInv s →
      PoolInv (replacement_loop cfg factoryOk now n s) := by
  intro n
  induction n with
  | zero =>
      intro s h
      exact h
  | succ n ih =>
      intro s hinv
      rw [replacement_loop]
      by_cases hs : s.shutting_down
      · rw [if_pos hs]
        exact hinv
      · rw [if_neg hs]
        by_cases hspace : s.available.length < cfg.max_pool_size
        · rw [if_neg (not_not_intro hspace)]
          rcases hcd : create_browser_direct (factoryOk n) now s with ⟨res, s1⟩
          match res with
          | .ok t =>
              have hs1 : PoolInv s1 := by
                have h2 := @create_browser_direct_inv (factoryOk n) now s hinv
                rw [hcd] at h2
                exact h2
              obtain ⟨hteq, hs1eq⟩ := create_browser_direct_ok hcd
              apply ih
              apply replacement_insert_inv hs1
              · rw [hteq, hs1eq]
                exact aLookup_aInsert_self _ _ _
              · intro u hu
                rw [hs1eq] at hu
                have hu' : u ∈ s.available := hu
                have := hinv.2.2.2.1 u hu'
                rw [hteq]
                simp only []
                omega
          | .error e =>
              rw [create_browser_direct_err hcd]
              exact ih s hinv
        · rw [if_pos hspace]
          exact hinv

/-- Claim C4: assuming the state invariant (unique ids, fresh counter, subset
property), every modelled pool operation preserves the cross-collection
property that each instance in `available` is tracked in `active` under its
id with the same instance as the value: direct creation, acquire, lease
return (for a valid lease), a keep-alive cycle, and a replacement task. -/
theorem pool_ops_preserve_idle_subset (cfg : BrowserPoolConfig)
    (health : TrackedBrowser → Bool) (factoryOk : Bool) (factoryOkN pingOk : Nat → Bool)
    (now n : Nat) (t : TrackedBrowser) (counts : CountMap) (s : PoolState)
    (hinv : PoolInv s) (hlease : LeaseValid s t) :
    IdleSubset (create_browser_direct factoryOk now s).2 ∧
    IdleSubset (get_or_create_browser cfg health factoryOk now s).2 ∧
    IdleSubset (return_browser cfg now t s) ∧
    IdleSubset (keep_alive_cycle cfg pingOk now s counts).1 ∧
    IdleSubset (replacement_loop cfg factoryOkN now n s) :=
  ⟨(create_browser_direct_inv hinv).1,
   (get_or_create_browser_inv hinv).1,
   (return_browser_inv hinv hlease).1,
   (keep_alive_cycle_inv hinv).1,
   (replacement_loop_inv cfg factoryOkN now n s hinv).1⟩

/-- Witness for C4 at the initial pool state (which satisfies the invariant)
and a trivially valid lease. -/
theorem pool_ops_preserve_idle_subset_witness :
    IdleSubset (create_browser_direct true 0 PoolState.init).2 ∧
    IdleSubset (get_or_create_browser BrowserPoolConfig.default (fun _ => true) true 0
      PoolState.init).2 ∧
    IdleSubset (return_browser BrowserPoolConfig.default 0 ⟨0, 0⟩ PoolState.init) ∧
    IdleSubset (keep_alive_cycle BrowserPoolConfig.default (fun _ => true) 0
      PoolState.init []).1 ∧
    IdleSubset (replacement_loop BrowserPoolConfig.default (fun _ => true) 0 2
      PoolState.init) :=
  pool_ops_preserve_idle_subset BrowserPoolConfig.default (fun _ => true) true
    (fun _ => true) (fun _ => true) 0 2 ⟨0, 0⟩ [] PoolState.init
    (by refine ⟨?_, ?_, ?_, ?_, ?_⟩ <;> simp [IdleSubset, PoolState.init])
    (by refine ⟨?_, ?_⟩ <;> simp [PoolState.init, aLookup])

/-! ### Claim C6: keep-alive failure counting and health removals -/

theorem cLookup_cErase_self (id : Nat) (c : CountMap) :
    cLookup id (cErase id c) = none := by
  induction c with
  | nil => rfl
  | cons p rest ih =>
      by_cases h : p.1 = id
      · simpa [cErase, h] using ih
      · have he : cErase id (p :: rest) = p :: cErase id rest := by
          simp [cErase, h]
        rw [he, cLookup, if_neg h]
        exact ih

theorem cLookup_cErase_ne {i j : Nat} (c : CountMap) (h : i ≠ j) :
    cLookup i (cErase j c) = cLookup i c := by
  induction c with
  | nil => rfl
  | cons p rest ih =>
      by_cases hp : p.1 = j
      · have he : cErase j (p :: rest) = cErase j rest := by
          simp [cErase, hp]
        rw [he, ih, cLookup, if_neg (by simp [hp]; omega)]
      · have he : cErase j (p :: rest) = p :: cErase j rest := by
          simp [cErase, hp]
        rw [he, cLookup, cLookup]
        by_cases hi : p.1 = i
        · rw [if_pos hi, if_pos hi]
        · rw [if_neg hi, if_neg hi, ih]

theorem cLookup_cSet_self (id n : Nat) (c : CountMap) :
    cLookup id (cSet id n c) = some n := by
  simp [cSet, cLookup]

theorem cLookup_cSet_ne {i j : Nat} (n : Nat) (c : CountMap) (h : i ≠ j) :
    cLookup i (cSet j n c) = cLookup i c := by
  rw [cSet, cLookup, if_neg (by omega), cLookup_cErase_ne c h]

theorem cGet_cErase_ne {i j : Nat} (c : CountMap) (h : i ≠ j) :
    cGet i (cErase j c) = cGet i c := by
  rw [cGet, cGet, cLookup_cErase_ne c h]

theorem cGet_cSet_ne {i j : Nat} (n : Nat) (c : CountMap) (h : i ≠ j) :
    cGet i (cSet j n c) = cGet i c := by
  rw [cGet, cGet, cLookup_cSet_ne n c h]

theorem ping_phase_subsets (pingOk : Nat → Bool) (ttl maxF now : Nat) :
    ∀ (snap : List (Nat × TrackedBrowser)) (counts : CountMap) (id : Nat),
      (id ∈ (ping_phase pingOk ttl maxF now snap counts).1 →
        id ∈ snap.map Prod.fst) ∧
      (id ∈ (ping_phase pingOk ttl maxF now snap counts).2.1 →
        id ∈ snap.map Prod.fst) := by
  intro snap
  induction snap with
  | nil =>
      intro counts id
      simp [ping_phase]
  | cons p rest ih =>
      intro counts id
      obtain ⟨j, t⟩ := p
      rw [ping_phase]
      by_cases hexp : t.is_expired ttl now
      · rw [if_pos hexp]
        dsimp only
        constructor
        · intro h
          exact List.mem_cons_of_mem _ ((ih counts id).1 h)
        · intro h
          rcases List.mem_cons.1 h with h1 | h2
          · rw [h1]
            exact List.mem_cons_self _ _
          · exact List.mem_cons_of_mem _ ((ih counts id).2 h2)
      · rw [if_neg hexp]
        by_cases hping : pingOk j
        · rw [if_pos hping]
          exact ⟨fun h => List.mem_cons_of_mem _ ((ih (cErase j counts) id).1 h),
            fun h => List.mem_cons_of_mem _ ((ih (cErase j counts) id).2 h)⟩
        · rw [if_neg hping]
          dsimp only
          by_cases hm : maxF ≤ cGet j counts + 1
          · rw [if_pos hm]
            dsimp only
            constructor
            · intro h
              rcases List.mem_cons.1 h with h1 | h2
              · rw [h1]
                exact List.mem_cons_self _ _
              · exact List.mem_cons_of_mem _
                  ((ih (cSet j (cGet j counts + 1) counts) id).1 h2)
            · intro h
              exact List.mem_cons_of_mem _
                ((ih (cSet j (cGet j counts + 1) counts) id).2 h)
          · rw [if_neg hm]
            exact ⟨fun h => List.mem_cons_of_mem _
                ((ih (cSet j (cGet j counts + 1) counts) id).1 h),
              fun h => List.mem_cons_of_mem _
                ((ih (cSet j (cGet j counts + 1) counts) id).2 h)⟩

theorem ping_phase_rm_nodup (pingOk : Nat → Bool) (ttl maxF now : Nat) :
    ∀ (snap : List (Nat × TrackedBrowser)) (counts : CountMap),
      (snap.map Prod.fst).Nodup →
      (ping_phase pingOk ttl maxF now snap counts).1.Nodup := by
  intro snap
  induction snap with
  | nil =>
      intro counts h
      simp [ping_phase]
  | cons p rest ih =>
      intro counts h
      obtain ⟨j, t⟩ := p
      rw [List.map_cons, List.nodup_cons] at h
      rw [ping_phase]
      by_cases hexp : t.is_expired ttl now
      · rw [if_pos hexp]
        exact ih counts h.2
      · rw [if_neg hexp]
        by_cases hping : pingOk j
        · rw [if_pos hping]
          exact ih (cErase j counts) h.2
        · rw [if_neg hping]
          dsimp only
          by_cases hm : maxF ≤ cGet j counts + 1
          · rw [if_pos hm]
            refine List.nodup_cons.2 ⟨?_, ih (cSet j (cGet j counts + 1) counts) h.2⟩
            intro hmem
            exact h.1 ((ping_phase_subsets pingOk ttl maxF now rest _ j).1 hmem)
          · rw [if_neg hm]
            exact ih (cSet j (cGet j counts + 1) counts) h.2

theorem ping_phase_rm_not_expired (pingOk : Nat → Bool) (ttl maxF now : Nat) :
    ∀ (snap : List (Nat × TrackedBrowser)) (counts : CountMap) (id : Nat)
      (t : TrackedBrowser),
      (snap.map Prod.fst).Nodup →
      aLookup id snap = some t →
      id ∈ (ping_phase pingOk ttl maxF now snap counts).1 →
      t.is_expired ttl now = false := by
  intro snap
  induction snap with
  | nil =>
      intro counts id t hn hl
      exact absurd hl (by simp [aLookup])
  | cons p rest ih =>
      intro counts id t hn hl hmem
      obtain ⟨j, u⟩ := p
      rw [List.map_cons, List.nodup_cons] at hn
      rw [aLookup] at hl
      rw [ping_phase] at hmem
      by_cases hj : j = id
      · rw [if_pos hj] at hl
        have hut : u = t := Option.some.inj hl
        subst hut
        by_cases hexp : u.is_expired ttl now
        · rw [if_pos hexp] at hmem
          exact absurd ((ping_phase_subsets pingOk ttl maxF now rest counts id).1 hmem)
            (hj ▸ hn.1)
        · exact eq_false_of_ne_true hexp
      · rw [if_neg hj] at hl
        by_cases hexp : u.is_expired ttl now
        · rw [if_pos hexp] at hmem
          exact ih counts id t hn.2 hl hmem
        · rw [if_neg hexp] at hmem
          by_cases hping : pingOk j
          · rw [if_pos hping] at hmem
            exact ih (cErase j counts) id t hn.2 hl hmem
          · rw [if_neg hping] at hmem
            dsimp only at hmem
            by_cases hm : maxF ≤ cGet j counts + 1
            · rw [if_pos hm] at hmem
              rcases List.mem_cons.1 hmem with h1 | h2
              · exact absurd h1.symm hj
              · exact ih (cSet j (cGet j counts + 1) counts) id t hn.2 hl h2
            · rw [if_neg hm] at hmem
              exact ih (cSet j (cGet j counts + 1) counts) id t hn.2 hl hmem

theorem ping_phase_ex_mem (pingOk : Nat → Bool) (ttl maxF now : Nat) :
    ∀ (snap : List (Nat × TrackedBrowser)) (counts : CountMap) (id : Nat)
      (t : TrackedBrowser),
      (snap.map Prod.fst).Nodup →
      aLookup id snap = some t →
      (id ∈ (ping_phase pingOk ttl maxF now snap counts).2.1 ↔
        t.is_expired ttl now = true) := by
  intro snap
  induction snap with
  | nil =>
      intro counts id t hn hl
      exact absurd hl (by simp [aLookup])
  | cons p rest ih =>
      intro counts id t hn hl
      obtain ⟨j, u⟩ := p
      rw [List.map_cons, List.nodup_cons] at hn
      rw [aLookup] at hl
      rw [ping_phase]
      by_cases hj : j = id
      · rw [if_pos hj] at hl
        have hut : u = t := Option.some.inj hl
        subst hut
        by_cases hexp : u.is_expired ttl now
        · rw [if_pos hexp]
          dsimp only
          exact ⟨fun _ => hexp, fun _ => List.mem_cons.2 (Or.inl hj.symm)⟩
        · rw [if_neg hexp]
          have hnot : id ∉ (ping_phase pingOk ttl maxF now rest
              (cErase j counts)).2.1 := fun h =>
            (hj ▸ hn.1) ((ping_phase_subsets pingOk ttl maxF now rest _ id).2 h)
          have hnot2 : ∀ c, id ∉ (ping_phase pingOk ttl maxF now rest c).2.1 := fun c h =>
            (hj ▸ hn.1) ((ping_phase_subsets pingOk ttl maxF now rest c id).2 h)
          by_cases hping : pingOk j
          · rw [if_pos hping]
            exact ⟨fun h => absurd h (hnot2 _), fun h => absurd h (by simp [hexp])⟩
          · rw [if_neg hping]
            dsimp only
            by_cases hm : maxF ≤ cGet j counts + 1
            · rw [if_pos hm]
              exact ⟨fun h => absurd h (hnot2 _), fun h => absurd h (by simp [hexp])⟩
            · rw [if_neg hm]
              exact ⟨fun h => absurd h (hnot2 _), fun h => absurd h (by simp [hexp])⟩
      · rw [if_neg hj] at hl
        by_cases hexp : u.is_expired ttl now
        · rw [if_pos hexp]
          dsimp only
          rw [List.mem_cons]
          constructor
          · intro h
            rcases h with h1 | h2
            · exact absurd h1.symm hj
            · exact (ih counts id t hn.2 hl).1 h2
          · intro h
            exact Or.inr ((ih counts id t hn.2 hl).2 h)
        · rw [if_neg hexp]
          by_cases hping : pingOk j
          · rw [if_pos hping]
            exact ih (cErase j counts) id t hn.2 hl
          · rw [if_neg hping]
            dsimp only
            by_cases hm : maxF ≤ cGet j counts + 1
            · rw [if_pos hm]
              exact ih (cSet j (cGet j counts + 1) counts) id t hn.2 hl
            · rw [if_neg hm]
              exact ih (cSet j (cGet j counts + 1) counts) id t hn.2 hl

theorem ping_phase_rm_mem (pingOk : Nat → Bool) (ttl maxF now : Nat) :
    ∀ (snap : List (Nat × TrackedBrowser)) (counts : CountMap) (id : Nat)
      (t : TrackedBrowser),
      (snap.map Prod.fst).Nodup →
      aLookup id snap = some t →
      cGet id counts < maxF →
      (id ∈ (ping_phase pingOk ttl maxF now snap counts).1 ↔
        (t.is_expired ttl now = false ∧ pingOk id = false ∧
          cGet id counts + 1 = maxF)) := by
  intro snap
  induction snap with
  | nil =>
      intro counts id t hn hl
      exact absurd hl (by simp [aLookup])
  | cons p rest ih =>
      intro counts id t hn hl hb
      obtain ⟨j, u⟩ := p
      rw [List.map_cons, List.nodup_cons] at hn
      rw [aLookup] at hl
      rw [ping_phase]
      have hnotrm : ∀ c, id ∉ (ping_phase pingOk ttl maxF now rest c).1 → True := fun _ _ =>
        trivial
      by_cases hj : j = id
      · subst hj
        rw [if_pos rfl] at hl
        have hut : u = t := Option.some.inj hl
        subst hut
        have hnot : ∀ c, j ∉ (ping_phase pingOk ttl maxF now rest c).1 := fun c h =>
          hn.1 ((ping_phase_subsets pingOk ttl maxF now rest c j).1 h)
        by_cases hexp : u.is_expired ttl now
        · rw [if_pos hexp]
          dsimp only
          exact ⟨fun h => absurd h (hnot _), fun h => absurd hexp (by simp [h.1])⟩
        · rw [if_neg hexp]
          by_cases hping : pingOk j
          · rw [if_pos hping]
            exact ⟨fun h => absurd h (hnot _), fun h => absurd hping (by simp [h.2.1])⟩
          · rw [if_neg hping]
            dsimp only
            by_cases hm : maxF ≤ cGet j counts + 1
            · rw [if_pos hm]
              refine ⟨fun _ => ⟨eq_false_of_ne_true hexp, eq_false_of_ne_true hping, ?_⟩,
                fun _ => List.mem_cons_self _ _⟩
              omega
            · rw [if_neg hm]
              refine ⟨fun h => absurd h (hnot _), fun h => ?_⟩
              obtain ⟨-, -, h3⟩ := h
              omega
      · rw [if_neg hj] at hl
        by_cases hexp : u.is_expired ttl now
        · rw [if_pos hexp]
          exact ih counts id t hn.2 hl hb
        · rw [if_neg hexp]
          by_cases hping : pingOk j
          · rw [if_pos hping]
            have hb2 : cGet id (cErase j counts) < maxF := by
              rw [cGet_cErase_ne counts (fun he => hj he.symm)]
              exact hb
            rw [ih (cErase j counts) id t hn.2 hl hb2,
              cGet_cErase_ne counts (fun he => hj he.symm)]
          · rw [if_neg hping]
            dsimp only
            have hne : id ≠ j := fun he => hj he.symm
            have hb2 : cGet id (cSet j (cGet j counts + 1) counts) < maxF := by
              rw [cGet_cSet_ne _ counts hne]
              exact hb
            have hih := ih (cSet j (cGet j counts + 1) counts) id t hn.2 hl hb2
            rw [cGet_cSet_ne _ counts hne] at hih
            by_cases hm : maxF ≤ cGet j counts + 1
            · rw [if_pos hm]
              rw [List.mem_cons]
              constructor
              · intro h
                rcases h with h1 | h2
                · exact absurd h1.symm hj
                · exact hih.1 h2
              · intro h
                exact Or.inr (hih.2 h)
            · rw [if_neg hm]
              exact hih

theorem ping_phase_counts_stable (pingOk : Nat → Bool) (ttl maxF now : Nat) :
    ∀ (snap : List (Nat × TrackedBrowser)) (counts : CountMap) (id : Nat),
      (∀ p ∈ snap, p.1 ≠ id) →
      cLookup id (ping_phase pingOk ttl maxF now snap counts).2.2 =
        cLookup id counts := by
  intro snap
  induction snap with
  | nil =>
      intro counts id h
      rfl
  | cons p rest ih =>
      intro counts id h
      obtain ⟨j, u⟩ := p
      have hj : j ≠ id := h (j, u) (List.mem_cons_self _ _)
      have hrest : ∀ p ∈ rest, p.1 ≠ id := fun p hp => h p (List.mem_cons_of_mem _ hp)
      rw [ping_phase]
      by_cases hexp : u.is_expired ttl now
      · rw [if_pos hexp]
        exact ih counts id hrest
      · rw [if_neg hexp]
        by_cases hping : pingOk j
        · rw [if_pos hping]
          rw [ih (cErase j counts) id hrest]
          exact cLookup_cErase_ne counts (fun he => hj he.symm)
        · rw [if_neg hping]
          dsimp only
          by_cases hm : maxF ≤ cGet j counts + 1
          · rw [if_pos hm]
            dsimp only
            rw [ih (cSet j (cGet j counts + 1) counts) id hrest]
            exact cLookup_cSet_ne _ counts (fun he => hj he.symm)
          · rw [if_neg hm]
            rw [ih (cSet j (cGet j counts + 1) counts) id hrest]
            exact cLookup_cSet_ne _ counts (fun he => hj he.symm)

theorem ping_phase_counts_final (pingOk : Nat → Bool) (ttl maxF now : Nat) :
    ∀ (snap : List (Nat × TrackedBrowser)) (counts : CountMap) (id : Nat)
      (t : TrackedBrowser),
      (snap.map Prod.fst).Nodup →
      aLookup id snap = some t →
      (t.is_expired ttl now = false → pingOk id = true →
        cLookup id (ping_phase pingOk ttl maxF now snap counts).2.2 = none) ∧
      (t.is_expired ttl now = false → pingOk id = false →
        cLookup id (ping_phase pingOk ttl maxF now snap counts).2.2 =
          some (cGet id counts + 1)) := by
  intro snap
  induction snap with
  | nil =>
      intro counts id t hn hl
      exact absurd hl (by simp [aLookup])
  | cons p rest ih =>
      intro counts id t hn hl
      obtain ⟨j, u⟩ := p
      rw [List.map_cons, List.nodup_cons] at hn
      rw [aLookup] at hl
      have hrest_of : j ∉ rest.map Prod.fst → ∀ p ∈ rest, p.1 ≠ j := by
        intro hjn p hp he
        exact hjn (he ▸ List.mem_map_of_mem Prod.fst hp)
      rw [ping_phase]
      by_cases hj : j = id
      · subst hj
        rw [if_pos rfl] at hl
        have hut : u = t := Option.some.inj hl
        subst hut
        have hstable : ∀ c, cLookup j (ping_phase pingOk ttl maxF now rest c).2.2 =
            cLookup j c := fun c =>
          ping_phase_counts_stable pingOk ttl maxF now rest c j (hrest_of hn.1)
        by_cases hexp : u.is_expired ttl now
        · rw [if_pos hexp]
          exact ⟨fun hf _ => absurd hexp (by simp [hf]),
            fun hf _ => absurd hexp (by simp [hf])⟩
        · rw [if_neg hexp]
          by_cases hping : pingOk j
          · rw [if_pos hping]
            refine ⟨fun _ _ => ?_, fun _ hpf => absurd hping (by simp [hpf])⟩
            rw [hstable (cErase j counts)]
            exact cLookup_cErase_self j counts
          · rw [if_neg hping]
            dsimp only
            refine ⟨fun _ hpt => absurd hping (by simp [hpt]), fun _ _ => ?_⟩
            by_cases hm : maxF ≤ cGet j counts + 1
            · rw [if_pos hm]
              dsimp only
              rw [hstable (cSet j (cGet j counts + 1) counts)]
              exact cLookup_cSet_self j _ counts
            · rw [if_neg hm]
              rw [hstable (cSet j (cGet j counts + 1) counts)]
              exact cLookup_cSet_self j _ counts
      · rw [if_neg hj] at hl
        have hne : id ≠ j := fun he => hj he.symm
        by_cases hexp : u.is_expired ttl now
        · rw [if_pos hexp]
          exact ih counts id t hn.2 hl
        · rw [if_neg hexp]
          by_cases hping : pingOk j
          · rw [if_pos hping]
            obtain ⟨h1, h2⟩ := ih (cErase j counts) id t hn.2 hl
            refine ⟨h1, fun hf hpf => ?_⟩
            rw [h2 hf hpf, cGet_cErase_ne counts hne]
          · rw [if_neg hping]
            dsimp only
            obtain ⟨h1, h2⟩ := ih (cSet j (cGet j counts + 1) counts) id t hn.2 hl
            by_cases hm : maxF ≤ cGet j counts + 1
            · rw [if_pos hm]
              dsimp only
              refine ⟨h1, fun hf hpf => ?_⟩
              rw [h2 hf hpf, cGet_cSet_ne _ counts hne]
            · rw [if_neg hm]
              refine ⟨h1, fun hf hpf => ?_⟩
              rw [h2 hf hpf, cGet_cSet_ne _ counts hne]

theorem keep_alive_cycle_eq_chain (cfg : BrowserPoolConfig) (pingOk : Nat → Bool)
    (now : Nat) (s : PoolState) (counts : CountMap)
    (rm ex : List Nat) (c1 : CountMap)
    (hns : s.shutting_down = false)
    (hping : ping_phase pingOk cfg.browser_ttl cfg.max_ping_failures now
      s.active counts = (rm, ex, c1)) :
    (keep_alive_cycle cfg pingOk now s counts).1 =
      cycle_requests (cycle_batch rm (cycle_batch ex c1 s).2.1
        (cycle_requests (cycle_batch ex c1 s))) := by
  unfold keep_alive_cycle
  rw [if_neg (by simp [hns]), hping]
  rfl

theorem cycle_requests_active (e : Nat × CountMap × PoolState) :
    (cycle_requests e).active = e.2.2.active := by
  unfold cycle_requests
  by_cases hp : 0 < e.1
  · rw [if_pos hp]
  · rw [if_neg hp]

theorem cycle_requests_requests_pos {e : Nat × CountMap × PoolState} (h : 0 < e.1) :
    (cycle_requests e).replacement_requests =
      e.2.2.replacement_requests ++ [e.1] := by
  unfold cycle_requests
  rw [if_pos h]

theorem cycle_batch_lookup_not_mem (ids : List Nat) (c : CountMap) (x : PoolState)
    (i : Nat) (hni : i ∉ ids) :
    aLookup i (cycle_batch ids c x).2.2.active = aLookup i x.active := by
  unfold cycle_batch
  by_cases hi : ids.isEmpty
  · rw [if_pos hi]
  · rw [if_neg hi]
    show aLookup i (remove_ids_active ids c x).2.2.active = aLookup i x.active
    rw [remove_ids_active_lookup, if_neg hni]

theorem cycle_batch_lookup_mem (ids : List Nat) (c : CountMap) (x : PoolState)
    (i : Nat) (hmm : i ∈ ids) :
    aLookup i (cycle_batch ids c x).2.2.active = none := by
  unfold cycle_batch
  rw [if_neg (by simp [List.ne_nil_of_mem hmm])]
  show aLookup i (remove_ids_active ids c x).2.2.active = none
  rw [remove_ids_active_lookup, if_pos hmm]

theorem remove_ids_active_count (ids : List Nat) :
    ∀ (c : CountMap) (s : PoolState), ids.Nodup →
      (remove_ids_active ids c s).1 =
        (ids.filter (fun i => aContains i s.active)).length := by
  induction ids with
  | nil =>
      intro c s h
      rfl
  | cons id rest ih =>
      intro c s h
      rw [List.nodup_cons] at h
      rw [remove_ids_active]
      by_cases hc : aContains id s.active = true
      · rw [if_pos hc]
        dsimp only
        rw [ih (cErase id c) _ h.2]
        have hfe : rest.filter (fun i =>
            aContains i ({ s with active := aErase id s.active } : PoolState).active) =
            rest.filter (fun i => aContains i s.active) := by
          apply List.filter_congr
          intro i hi
          show aContains i (aErase id s.active) = aContains i s.active
          exact aContains_aErase_ne s.active (fun he => h.1 (he ▸ hi))
        rw [hfe, List.filter_cons_of_pos (by simpa using hc), List.length_cons]
      · rw [if_neg hc]
        rw [ih (cErase id c) s h.2,
          List.filter_cons_of_neg (by simpa using hc)]

theorem cycle_batch_count (ids : List Nat) (c : CountMap) (x : PoolState)
    (hne : ids ≠ []) (hnodup : ids.Nodup)
    (hcont : ∀ i ∈ ids, aContains i x.active = true) :
    (cycle_batch ids c x).1 = ids.length := by
  unfold cycle_batch
  rw [if_neg (by simp [hne])]
  show (remove_ids_active ids c x).1 = ids.length
  rw [remove_ids_active_count ids c x hnodup,
    List.filter_eq_self.2 (fun a ha => by simpa using hcont a ha)]

/-- Claim C6: in a keep-alive cycle (pool not shutting down), a non-expired
instance is marked for health removal exactly when its consecutive
ping-failure counter reaches `max_ping_failures` (counter erased on a
successful ping, incremented on a failed one); every id marked for removal is
indeed removed from `active`; and the failed batch schedules replacement work
of exactly one replacement per actually-removed instance (the spawned request
count equals the number of removed ids). -/
theorem keep_alive_health_removal_spec (cfg : BrowserPoolConfig)
    (pingOk : Nat → Bool) (now : Nat) (s : PoolState) (counts : CountMap)
    (id : Nat) (t : TrackedBrowser)
    (hns : s.shutting_down = false)
    (hkeys : (s.active.map Prod.fst).Nodup)
    (hmem : aLookup id s.active = some t)
    (hbound : cGet id counts < cfg.max_ping_failures) :
    (id ∈ (ping_phase pingOk cfg.browser_ttl cfg.max_ping_failures now
        s.active counts).1 ↔
      (t.is_expired cfg.browser_ttl now = false ∧ pingOk id = false ∧
        cGet id counts + 1 = cfg.max_ping_failures)) ∧
    (t.is_expired cfg.browser_ttl now = false → pingOk id = true →
      cLookup id (ping_phase pingOk cfg.browser_ttl cfg.max_ping_failures now
        s.active counts).2.2 = none) ∧
    (t.is_expired cfg.browser_ttl now = false → pingOk id = false →
      cGet id (ping_phase pingOk cfg.browser_ttl cfg.max_ping_failures now
        s.active counts).2.2 = cGet id counts + 1) ∧
    (id ∈ (ping_phase pingOk cfg.browser_ttl cfg.max_ping_failures now
        s.active counts).1 →
      aLookup id (keep_alive_cycle cfg pingOk now s counts).1.active = none) ∧
    ((ping_phase pingOk cfg.browser_ttl cfg.max_ping_failures now
        s.active counts).1 ≠ [] →
      ∃ pre, (keep_alive_cycle cfg pingOk now s counts).1.replacement_requests =
        pre ++ [(ping_phase pingOk cfg.browser_ttl cfg.max_ping_failures now
          s.active counts).1.length]) := by
  rcases hping : ping_phase pingOk cfg.browser_ttl cfg.max_ping_failures now
    s.active counts with ⟨rm, ex, c1⟩
  have hchar := ping_phase_rm_mem pingOk cfg.browser_ttl cfg.max_ping_failures now
    s.active counts id t hkeys hmem hbound
  have hcounts := ping_phase_counts_final pingOk cfg.browser_ttl cfg.max_ping_failures now
    s.active counts id t hkeys hmem
  rw [hping] at hchar hcounts
  have hpart4 : id ∈ rm →
      aLookup id (keep_alive_cycle cfg pingOk now s counts).1.active = none := by
    intro hid
    rw [keep_alive_cycle_eq_chain cfg pingOk now s counts rm ex c1 hns hping,
      cycle_requests_active]
    exact cycle_batch_lookup_mem rm _ _ id hid
  have hnodup : rm.Nodup := by
    have h := ping_phase_rm_nodup pingOk cfg.browser_ttl cfg.max_ping_failures now
      s.active counts hkeys
    rw [hping] at h
    exact h
  have hfacts : ∀ i ∈ rm, i ∉ ex ∧ aContains i s.active = true := by
    intro i hi
    have hkey : i ∈ s.active.map Prod.fst := by
      have h := (ping_phase_subsets pingOk cfg.browser_ttl cfg.max_ping_failures now
        s.active counts i).1
      rw [hping] at h
      exact h hi
    have hcont : aContains i s.active = true := aContains_of_mem_keys hkey
    rcases hu : aLookup i s.active with _ | u
    · rw [aContains, hu] at hcont
      simp at hcont
    · have hnexp : u.is_expired cfg.browser_ttl now = false := by
        have h := ping_phase_rm_not_expired pingOk cfg.browser_ttl
          cfg.max_ping_failures now s.active counts i u hkeys hu
        rw [hping] at h
        exact h hi
      refine ⟨fun hex => ?_, hcont⟩
      have h := (ping_phase_ex_mem pingOk cfg.browser_ttl cfg.max_ping_failures now
        s.active counts i u hkeys hu).1
      rw [hping] at h
      rw [h hex] at hnexp
      exact absurd hnexp (by simp)
  have hpart5 : rm ≠ [] → ∃ pre,
      (keep_alive_cycle cfg pingOk now s counts).1.replacement_requests =
        pre ++ [rm.length] := by
    intro hrmne
    rw [keep_alive_cycle_eq_chain cfg pingOk now s counts rm ex c1 hns hping]
    have hcont1 : ∀ i ∈ rm,
        aContains i (cycle_requests (cycle_batch ex c1 s)).active = true := by
      intro i hi
      rw [aContains, cycle_requests_active,
        cycle_batch_lookup_not_mem ex c1 s i (hfacts i hi).1]
      exact (hfacts i hi).2
    have hcount := cycle_batch_count rm (cycle_batch ex c1 s).2.1
      (cycle_requests (cycle_batch ex c1 s)) hrmne hnodup hcont1
    refine ⟨(cycle_batch rm (cycle_batch ex c1 s).2.1
      (cycle_requests (cycle_batch ex c1 s))).2.2.replacement_requests, ?_⟩
    rw [cycle_requests_requests_pos
      (by rw [hcount]; exact List.length_pos.2 hrmne), hcount]
  refine ⟨hchar, hcounts.1, fun hf hp => ?_, hpart4, hpart5⟩
  rw [cGet, hcounts.2 hf hp]
  rfl

/-- Witness for C6 at a concrete cycle: one fresh instance whose ping fails
with `max_ping_failures = 1`. -/
theorem keep_alive_health_removal_spec_witness :
    ((0 : Nat) ∈ (ping_phase (fun _ => false) kaCfg.browser_ttl kaCfg.max_ping_failures 0
        kaState.active []).1 ↔
      ((⟨0, 0⟩ : TrackedBrowser).is_expired kaCfg.browser_ttl 0 = false ∧
        (fun _ => false) 0 = false ∧ cGet 0 [] + 1 = kaCfg.max_ping_failures)) ∧
    ((⟨0, 0⟩ : TrackedBrowser).is_expired kaCfg.browser_ttl 0 = false →
      (fun _ => false) 0 = true →
      cLookup 0 (ping_phase (fun _ => false) kaCfg.browser_ttl kaCfg.max_ping_failures 0
        kaState.active []).2.2 = none) ∧
    ((⟨0, 0⟩ : TrackedBrowser).is_expired kaCfg.browser_ttl 0 = false →
      (fun _ => false) 0 = false →
      cGet 0 (ping_phase (fun _ => false) kaCfg.browser_ttl kaCfg.max_ping_failures 0
        kaState.active []).2.2 = cGet 0 [] + 1) ∧
    ((0 : Nat) ∈ (ping_phase (fun _ => false) kaCfg.browser_ttl kaCfg.max_ping_failures 0
        kaState.active []).1 →
      aLookup 0 (keep_alive_cycle kaCfg (fun _ => false) 0 kaState []).1.active = none) ∧
    ((ping_phase (fun _ => false) kaCfg.browser_ttl kaCfg.max_ping_failures 0
        kaState.active []).1 ≠ [] →
      ∃ pre, (keep_alive_cycle kaCfg (fun _ => false) 0 kaState []).1.replacement_requests =
        pre ++ [(ping_phase (fun _ => false) kaCfg.browser_ttl kaCfg.max_ping_failures 0
          kaState.active []).1.length]) :=
  keep_alive_health_removal_spec kaCfg (fun _ => false) 0 kaState [] 0 ⟨0, 0⟩
    rfl (by decide) rfl (by decide)
